import Mathlib

/-!
Shallow embedding of the cerebro documentation-generation pipeline
(src/src/utils.py, src/src/nodes.py) and proofs about it.

Conventions of the embedding:
* Python strings are Lean `String`s; file contents are assumed to be ASCII
  text whose only line separator is '\n' (the code opens files in text mode
  with errors="ignore", so byte offsets and character offsets coincide for
  the inputs modelled here).
* Python dicts are association lists `List (String × β)` with the insert /
  update / delete operations of `dict` modelled below (`dictInsert`,
  `dictUpdate`, `dictErase`, `dictLookup`).
* External collaborators (the synthesis LLM, git metadata, ast-grep
  structure extraction, the wall clock inside `extract_latest_date`) are
  parameters of the definitions: the surrounding control flow is translated
  from the source, the collaborator itself is a function argument.
-/

namespace Cerebro

/-! ## Generic string helpers mirroring Python primitives -/

/-- Bool-valued list prefix test (Python `str.startswith` on char lists). -/
def isPrefixB : List Char → List Char → Bool
  | [], _ => true
  | _ :: _, [] => false
  | a :: ps, b :: ss => a == b && isPrefixB ps ss

/-- Bool-valued substring containment on char lists (Python `in`). -/
def containsB : List Char → List Char → Bool
  | s, p =>
    isPrefixB p s ||
      match s with
      | [] => false
      | _ :: ss => containsB ss p

/-- Python `pat in s` for strings. -/
def strContains (s pat : String) : Bool := containsB s.toList pat.toList

/-- Python `s.lower()` (ASCII inputs). -/
def strLower (s : String) : String := String.mk (s.toList.map Char.toLower)

/-- Python `s.endswith(suf)`. -/
def strEndsWith (s suf : String) : Bool := isPrefixB suf.toList.reverse s.toList.reverse

/-- Left-pad a string to width `w` with the pad character `c`. -/
def padLeft (w : Nat) (c : Char) (s : String) : String :=
  String.mk (List.replicate (w - s.length) c ++ s.toList)

/-- Python `f"{i:4d}"`: decimal, right-aligned in 4 columns. -/
def pyFmt4 (i : Nat) : String := padLeft 4 ' ' (toString i)

/-- Python `f"{i:03d}"`: decimal, zero-padded to 3 columns. -/
def pyPad3 (i : Nat) : String := padLeft 3 '0' (toString i)

/-- Python `s.splitlines()` for '\n'-separated text: the final piece is not
emitted when the text ends with the separator, and empty text has no lines. -/
def splitlinesGo : List Char → List Char → List String
  | [], [] => []
  | [], acc => [String.mk acc.reverse]
  | c :: cs, acc =>
    if c = '\n' then String.mk acc.reverse :: splitlinesGo cs []
    else splitlinesGo cs (c :: acc)

/-- Python `s.splitlines()`. -/
def splitlines (s : String) : List String := splitlinesGo s.toList []

/-- Python `s.splitlines(keepends=True)` for '\n'-separated text. -/
def splitlinesKeepGo : List Char → List Char → List String
  | [], [] => []
  | [], acc => [String.mk acc.reverse]
  | c :: cs, acc =>
    if c = '\n' then String.mk (acc.reverse ++ ['\n']) :: splitlinesKeepGo cs []
    else splitlinesKeepGo cs (c :: acc)

/-- Python `s.splitlines(keepends=True)`. -/
def splitlinesKeep (s : String) : List String := splitlinesKeepGo s.toList []

/-- Python `s[-n:]` (the last `n` characters; the whole string when shorter). -/
def takeRight (n : Nat) (s : String) : String :=
  String.mk (s.toList.drop (s.length - n))

/-- Python `s[a:a+n]` (a window of at most `n` characters starting at `a`). -/
def strSlice (s : String) (a n : Nat) : String :=
  String.mk ((s.toList.drop a).take n)

/-! ## Python dict as an insertion-ordered association list -/

/-- Python `d[k]` / `d.get(k)`: the value stored for `k`. -/
def dictLookup {β : Type} (k : String) : List (String × β) → Option β
  | [] => none
  | kv :: rest => if kv.1 = k then some kv.2 else dictLookup k rest

/-- Python `d[k] = v`: replace the value in place when the key is present,
append the pair otherwise. -/
def dictInsert {β : Type} (k : String) (v : β) : List (String × β) → List (String × β)
  | [] => [(k, v)]
  | kv :: rest => if kv.1 = k then (k, v) :: rest else kv :: dictInsert k v rest

/-- Python `d.update(e)`: assign every pair of `e` into `d` in order. -/
def dictUpdate {β : Type} (d e : List (String × β)) : List (String × β) :=
  e.foldl (fun acc kv => dictInsert kv.1 kv.2 acc) d

/-- Python `del d[k]`. -/
def dictErase {β : Type} (k : String) (d : List (String × β)) : List (String × β) :=
  d.filter (fun kv => decide (kv.1 ≠ k))

/-! ## Repository scanner (src/src/utils.py, build_file_index) -/

/-- src/src/utils.py line 69: hard cap for snippetable files (2 MB). -/
def FILE_SIZE_HARD_CAP : Nat := 2 * 1024 * 1024

/-- src/src/utils.py line 70: only hash files up to 512 KB. -/
def HASH_SIZE_CAP : Nat := 512 * 1024

/-- src/src/utils.py line 72: 128 KB chunks for oversize files. -/
def DEFAULT_CHUNK_SIZE : Nat := 128 * 1024

/-- src/src/utils.py line 73: at most 3 chunks read per oversize file. -/
def DEFAULT_MAX_CHUNKS_PER_FILE : Nat := 3

/-- One record of the file index (utils.build_file_index, lines 171-180). -/
structure FileRecord where
  path : String
  size : Nat
  mtime : String
  ext : String
  is_text : Bool
  sha256 : Option String
  oversized : Bool
  chunk_count : Nat
deriving DecidableEq, Repr

/-- utils._safe_hash (lines 84-95): `hashResult` stands for the sha256
hexdigest the streaming read would produce — `some h` when the read
succeeds, `none` when it raises. Files above the hash cap are never read. -/
def safe_hash (size : Nat) (hashResult : Option String) : Option String :=
  if size > HASH_SIZE_CAP then none else hashResult

/-- The per-file body of utils.build_file_index (lines 162-180): field
computation for one visited file. `hashResult` is the hashing collaborator's
answer as in `safe_hash`. -/
def mkFileRecord (rel_path : String) (size : Nat) (mtime ext : String)
    (is_text : Bool) (hashResult : Option String) : FileRecord :=
  { path := rel_path
    size := size
    mtime := mtime
    ext := ext
    is_text := is_text
    sha256 := if is_text then safe_hash size hashResult else none
    oversized := decide (size > FILE_SIZE_HARD_CAP)
    chunk_count :=
      if size > FILE_SIZE_HARD_CAP then
        size / DEFAULT_CHUNK_SIZE + (if size % DEFAULT_CHUNK_SIZE ≠ 0 then 1 else 0)
      else 0 }

/-! ## Candidate selector (src/src/utils.py, select_doc_candidates) -/

/-- Python `any(k in lower for k in keywords)`. -/
def anyKeyword (lower : String) (keywords : List String) : Bool :=
  keywords.any (fun k => strContains lower k)

/-- The topic ids of the candidates dict, in the order the source
initialises them (utils.select_doc_candidates, lines 668-687). -/
def DOC_IDS : List String :=
  ["100", "101", "200", "311", "330", "421", "500", "600", "701", "720",
   "740", "760", "780", "800", "850", "900", "930", "980"]

/-- The appends one record contributes to one topic's list, in rule order
(utils.select_doc_candidates, lines 689-848). A topic whose rules fire
several times for the record appends the path once per firing rule. -/
def topicAppends (r : FileRecord) (topic : String) : List String :=
  let lower := strLower r.path
  let ext := r.ext
  match topic with
  | "100" =>
    if anyKeyword lower ["readme", "architecture", "overview", "main", "app", "index"]
    then [r.path] else []
  | "101" =>
    if anyKeyword lower ["route", "router", "entry", "main", "app"] then [r.path] else []
  | "200" =>
    if anyKeyword lower ["business", "domain", "logic", "service", "model", "entity"]
    then [r.path] else []
  | "311" =>
    (if anyKeyword lower ["route", "controller", "api", "endpoint", "rest"]
     then [r.path] else []) ++
    (if ext ∈ ["ts", "tsx", "js", "jsx", "kt", "kts", "java", "go"] then [r.path] else [])
  | "330" =>
    if anyKeyword lower ["event", "topic", "message", "queue"] then [r.path] else []
  | "421" =>
    if anyKeyword lower ["model", "schema", "entity", "dto"] then [r.path] else []
  | "500" =>
    if anyKeyword lower
        ["dependency", "package", "requirements", "pom", "cargo", "go.mod", "gradle"] ||
       ext ∈ ["toml", "lock", "json", "gradle", "kts"] then [r.path] else []
  | "600" =>
    if anyKeyword lower
        ["config", "env", "properties", "settings", "yaml", "dockerfile",
         "containerfile", "docker-compose", "compose.yaml", "compose.yml",
         "terraform", "terragrunt"] ||
       ext ∈ ["tf", "tfvars", "hcl"] then [r.path] else []
  | "701" =>
    if anyKeyword lower ["auth", "security", "login", "jwt"] then [r.path] else []
  | "720" =>
    (if anyKeyword lower
        ["test", "tests", "spec", "playwright", "cypress", "jest", "vitest",
         "junit", "surefire", "pytest", "tox", "unittest"] then [r.path] else []) ++
    (if ext ∈ ["feature"] || strContains lower "gherkin" then [r.path] else [])
  | "740" =>
    if anyKeyword lower
        ["security", "snyk", "bandit", "semgrep", "trivy", "grype", "iam",
         "policy", "jwt", "oidc", "secrets", "vault"] then [r.path] else []
  | "760" =>
    if anyKeyword lower
        ["perf", "performance", "benchmark", "load", "k6", "locust", "gatling",
         "wrk", "cache", "rate_limit", "throttle", "concurrency"] then [r.path] else []
  | "780" =>
    if anyKeyword lower
        ["migration", "migrate", "schema", "prisma", "knex", "flyway",
         "liquibase", "db", "database", "sql", "ddl", "seed", "etl", "cdc"]
    then [r.path] else []
  | "800" =>
    if anyKeyword lower ["log", "monitor", "observability", "metrics"] then [r.path] else []
  | "850" =>
    if anyKeyword lower ["runbook", "failure", "debug", "restart"] then [r.path] else []
  | "900" =>
    if anyKeyword lower
        ["ci", "cd", "pipeline", "workflow", "github", "gitlab", "jenkins",
         "harness", ".harness", "drone"] then [r.path] else []
  | "930" =>
    if anyKeyword lower ["adr", "decision", "risk", "tradeoff"] then [r.path] else []
  | "980" =>
    if r.is_text then [r.path] else []
  | _ => []

/-- utils.select_doc_candidates (lines 666-850): per-topic candidate lists,
as the insertion-ordered dict the source returns. Each topic's list is the
concatenation, in index order, of the appends each record contributes. -/
def select_doc_candidates (file_index : List FileRecord) : List (String × List String) :=
  DOC_IDS.map (fun topic => (topic, file_index.flatMap (fun r => topicAppends r topic)))

/-- Python `candidates.get(topic, [])` over the selector result. -/
def candidatesFor (file_index : List FileRecord) (topic : String) : List String :=
  (dictLookup topic (select_doc_candidates file_index)).getD []

/-! ## Content batcher (src/src/utils.py, read_relevant_files)

The filesystem under the repository root is a map `fs` from root-relative
path to the file's text content, byte size and git "Last modified" string.
The in-process content cache keyed by (path, mtime) is transparent here: a
cache hit requires an unchanged mtime, so it returns the same content the
read would. -/

/-- One file as the batcher sees it. -/
structure SourceFile where
  content : String
  size : Nat
  gitDate : String
deriving DecidableEq, Repr

/-- The per-run tunables of read_relevant_files: per-topic character budget
`max_total_chars`, `chunk_size`, `max_chunks_per_file`, `smart_mode`. -/
structure BatchCfg where
  maxTotalChars : Nat
  chunkSize : Nat
  maxChunksPerFile : Nat
  smartMode : Bool
deriving DecidableEq, Repr

/-- One string appended to the batcher's `content` list: the source path it
came from ("" for the truncation marker), the text blob, and the number of
characters the source adds to `total_chars` for it (headers and markers are
not counted by the source). -/
structure Emitted where
  path : String
  text : String
  counted : Nat
deriving DecidableEq, Repr

/-- The truncation marker appended once the budget has been reached
(utils.read_relevant_files, line 974). -/
def truncMarkerE : Emitted :=
  { path := "", text := "\n--- [TRUNCATED: MAX SIZE REACHED FOR DOC TYPE] ---\n", counted := 0 }

/-- Line numbering for the small-file branch (lines 1078-1088): stop before
a line once the running per-file count exceeds 10000, flagging truncation. -/
def numberSmallGo : Nat → Nat → List String → List String × Nat × Bool
  | _, charCount, [] => ([], charCount, false)
  | i, charCount, line :: rest =>
    if charCount > 10000 then ([], charCount, true)
    else
      let fl := pyFmt4 i ++ " | " ++ line
      let r := numberSmallGo (i + 1) (charCount + fl.length) rest
      (fl :: r.1, r.2.1, r.2.2)

/-- Line numbering for the chunked branch (lines 1018-1025): append each
numbered line, breaking once the running count plus the topic total reaches
the budget (the crossing line is still appended). -/
def numberChunkGo (maxTotal total : Nat) : Nat → Nat → List String → List String × Nat
  | _, charCount, [] => ([], charCount)
  | i, charCount, line :: rest =>
    let fl := pyFmt4 i ++ " | " ++ line ++ "\n"
    let cc := charCount + fl.length
    if cc + total ≥ maxTotal then ([fl], cc)
    else
      let r := numberChunkGo maxTotal total (i + 1) cc rest
      (fl :: r.1, r.2)

/-- The chunked-read while loop (lines 1006-1036): read successive
`chunk_size`-character windows from the start of the file, at most
`max_chunks_per_file` of them (the fuel argument), stopping early when the
budget is reached or the file is exhausted. Returns the emitted blobs and
the updated running total. -/
def chunkLoop (cfg : BatchCfg) (fileContent relPath gitDate : String) :
    Nat → Nat → Nat → Nat → List Emitted × Nat
  | 0, _, _, total => ([], total)
  | fuel + 1, chunkIdx, offset, total =>
    if total ≥ cfg.maxTotalChars then ([], total)
    else
      let data := strSlice fileContent offset cfg.chunkSize
      if data = "" then ([], total)
      else
        let numbered := numberChunkGo cfg.maxTotalChars total 1 0 (splitlines data)
        let header := "--- " ++ relPath ++ " [chunk " ++ toString (chunkIdx + 1) ++
          " @ bytes " ++ toString offset ++ "-" ++ toString (offset + data.length) ++
          "] (Last modified: " ++ gitDate ++ ") ---"
        let blob := header ++ "\n" ++ String.join numbered.1 ++ "\n"
        let rec2 := chunkLoop cfg fileContent relPath gitDate fuel (chunkIdx + 1)
          (offset + cfg.chunkSize) (total + numbered.2)
        (⟨relPath, blob, numbered.2⟩ :: rec2.1, rec2.2)

/-- The path → fingerprint map built from the hash index (lines 945-948);
a later entry for the same path overwrites an earlier one. -/
def path_hash_map (hashIndex : List (String × List String)) : String → Option String :=
  fun p =>
    dictLookup p (hashIndex.flatMap (fun e => e.2.map (fun rel => (rel, e.1)))).reverse

/-- When no hash index is passed the map stays empty and deduplication is a
no-op (the source's `if hash_index:` / `get` returning None). -/
def phmOf (hashIndex : Option (List (String × List String))) : String → Option String :=
  match hashIndex with
  | some hi => path_hash_map hi
  | none => fun _ => none

/-- The deduplication step at the top of the loop body (lines 977-983):
`none` means the path is skipped (its fingerprint was already seen), `some
seen2` means it is processed with the updated seen set. An empty-string
fingerprint is falsy in Python and bypasses deduplication. -/
def dedupStep (phm : String → Option String) (p : String) (seen : List String) :
    Option (List String) :=
  match phm p with
  | some sha =>
    if sha ≠ "" then
      (if sha ∈ seen then none else some (sha :: seen))
    else some seen
  | none => some seen

/-- The reading part of one loop iteration of read_relevant_files (lines
985-1099) for path `p`: choose the chunked or the whole-file strategy, emit
the blob(s), then continue with `recurse` at the updated running total. -/
def rrfBody (fs : String → Option SourceFile) (cfg : BatchCfg) (es : String → String)
    (sizeMap : String → Option Nat) (p : String)
    (recurse : Nat → List String → List Emitted) (total : Nat) (seen2 : List String) :
    List Emitted :=
  match fs p with
  | none => recurse total seen2
  | some f =>
    let fileSize := (sizeMap p).getD f.size
    if fileSize > cfg.chunkSize then
      let chunked := chunkLoop cfg f.content p f.gitDate cfg.maxChunksPerFile 0 0 total
      chunked.1 ++ recurse chunked.2 seen2
    else
      let lines0 := splitlinesKeep f.content
      let smartOn := cfg.smartMode && strEndsWith p ".py"
      let st := es (String.join lines0)
      let lines1 := if smartOn then splitlinesKeep st else lines0
      let fileSize1 := if smartOn then st.length else fileSize
      if fileSize1 ≤ cfg.chunkSize then
        let numbered := numberSmallGo 1 0 lines1
        let fileContent := String.join numbered.1 ++
          (if numbered.2.2 then "\n... [File truncated] ...\n" else "")
        let blob := "--- " ++ p ++ " (Last modified: " ++ f.gitDate ++ ") ---" ++
          "\n" ++ fileContent ++ "\n"
        ⟨p, blob, numbered.2.1⟩ :: recurse (total + numbered.2.1) seen2
      else recurse total seen2

/-- The main loop of read_relevant_files (lines 971-1099) over the filtered
candidate paths, threading `total_chars` and `seen_hashes`. `es` is the
ast-grep structure-extraction collaborator used in smart mode. -/
def rrfGo (fs : String → Option SourceFile) (cfg : BatchCfg) (es : String → String)
    (phm : String → Option String) (sizeMap : String → Option Nat) :
    List String → Nat → List String → List Emitted
  | [], _, _ => []
  | p :: rest, total, seen =>
    if total ≥ cfg.maxTotalChars then [truncMarkerE]
    else
      match dedupStep phm p seen with
      | none => rrfGo fs cfg es phm sizeMap rest total seen
      | some seen2 =>
        rrfBody fs cfg es sizeMap p
          (fun t s => rrfGo fs cfg es phm sizeMap rest t s) total seen2

/-- read_relevant_files (lines 923-1103) restricted to the
`candidate_paths is not None` branch, which is the only one the generation
stage uses: candidates are filtered for existence, then the loop runs with
a fresh `seen_hashes` and `total_chars = 0`. Returns the emitted blob
list. -/
def read_relevant_files_entries (fs : String → Option SourceFile) (cfg : BatchCfg)
    (es : String → String) (hashIndex : Option (List (String × List String)))
    (sizeMap : String → Option Nat) (candidatePaths : List String) : List Emitted :=
  rrfGo fs cfg es (phmOf hashIndex) sizeMap
    (candidatePaths.filter (fun p => (fs p).isSome)) 0 []

/-- The string read_relevant_files returns: the blobs joined with "\n". -/
def read_relevant_files (fs : String → Option SourceFile) (cfg : BatchCfg)
    (es : String → String) (hashIndex : Option (List (String × List String)))
    (sizeMap : String → Option Nat) (candidatePaths : List String) : String :=
  String.intercalate "\n"
    ((read_relevant_files_entries fs cfg es hashIndex sizeMap candidatePaths).map Emitted.text)

/-! ## Generation orchestrator (src/src/nodes.py, generate_docs) -/

/-- src/src/config.py: settings.MAX_DOC_CANDIDATES default. -/
def MAX_DOC_CANDIDATES : Nat := 120

/-- src/src/config.py: settings.MAX_RAG_CANDIDATES default. -/
def MAX_RAG_CANDIDATES : Nat := 200

/-- Stable insertion used to model Python `sorted(xs, key=...)`: the new
element goes after every element whose key is not greater, so elements with
equal keys keep their original relative order. -/
def insertAfterEq {α : Type} (key : α → Nat) (x : α) : List α → List α
  | [] => [x]
  | y :: ys => if key y ≤ key x then y :: insertAfterEq key x ys else x :: y :: ys

/-- Python `sorted(xs, key=...)` (a stable ascending sort by the key). -/
def sortByKey {α : Type} (key : α → Nat) (xs : List α) : List α :=
  xs.foldl (fun acc x => insertAfterEq key x acc) []

/-- nodes.generate_docs.batched (lines 301-303): slices of `size` elements.
Fuel equals the list length, which bounds the number of slices. -/
def batchedFuel {α : Type} (size : Nat) : Nat → List α → List (List α)
  | _, [] => []
  | 0, _ :: _ => []
  | fuel + 1, x :: xs => (x :: xs).take size :: batchedFuel size fuel ((x :: xs).drop size)

/-- Python `batched(seq, size)` as a list (a positive `size` is the only
use; `range` with step 0 would raise in the source). -/
def batched {α : Type} (seq : List α) (size : Nat) : List (List α) :=
  if size = 0 then [] else batchedFuel size seq.length seq

/-- One call to the synthesis collaborator (`llm.ainvoke` in
generate_single_doc): the pieces of the prompt the claims are about. -/
structure SynthCall where
  docId : String
  batchLabel : String
  newSources : String
  draftExcerpt : String
  latestDate : String
deriving DecidableEq, Repr

/-- The run-scoped inputs generate_docs reads from the agent state, with the
external collaborators as functions: `es` is ast-grep structure extraction,
`eld` is extract_latest_date (it reads the wall clock when no date appears
in the content, so it is a collaborator here), `depsContent` is the
parse_dependencies output used for topic "500". -/
structure GenCtx where
  fs : String → Option SourceFile
  hashIndex : Option (List (String × List String))
  sizeMap : String → Option Nat
  es : String → String
  eld : String → String
  depsContent : String
  maxDefaultCandidates : Nat
  maxRagCandidates : Nat

/-- The batcher configuration generate_single_doc passes per call (nodes.py
lines 318-326): budget 300000 for topic "980", otherwise 200000; smart mode
exactly for topics "100" and "200". -/
def gsdCfg (docId : String) : BatchCfg :=
  { maxTotalChars := if docId = "980" then 300000 else 200000
    chunkSize := DEFAULT_CHUNK_SIZE
    maxChunksPerFile := DEFAULT_MAX_CHUNKS_PER_FILE
    smartMode := decide (docId ∈ ["100", "200"]) }

/-- nodes.generate_single_doc lines 299-329: sort the topic's candidates by
known size, partition them into batches of `max_candidates`, and read each
batch (topic "500" instead uses the dependency report; a topic with no
candidates still yields one empty batch). Returns the
`(batch_label, relevant_content)` pairs. -/
def gsdRelevantBatches (ctx : GenCtx) (docId : String) (allCandidates : List String) :
    List (String × String) :=
  let maxCandidates := if docId = "980" then ctx.maxRagCandidates else ctx.maxDefaultCandidates
  let candidateBatches :=
    batched (sortByKey (fun p => (ctx.sizeMap p).getD 0) allCandidates) maxCandidates
  if docId = "500" then [("deps", ctx.depsContent)]
  else if candidateBatches ≠ [] then
    candidateBatches.enum.map (fun ib =>
      (toString (ib.1 + 1) ++ "/" ++ toString candidateBatches.length,
       read_relevant_files ctx.fs (gsdCfg docId) ctx.es ctx.hashIndex ctx.sizeMap ib.2))
  else [("1/1", "")]

/-- The one synthesis call generate_single_doc builds. The `for` loop over
the batches (nodes.py lines 330-332) only computes `latest_date` and
`existing_excerpt`; the prompt construction and the collaborator call sit
after the loop, so only the last iteration's `batch_label` and
`relevant_content` reach the prompt, and `doc_content` is still "" when the
excerpt is taken. `relevant_batches` is never empty, so the `getLastD`
default is never used. -/
def gsdCall (ctx : GenCtx) (docId : String) (allCandidates : List String) : SynthCall :=
  let relevantBatches := gsdRelevantBatches ctx docId allCandidates
  let doc_content := ""
  let last := relevantBatches.getLastD ("", "")
  { docId := docId
    batchLabel := last.1
    newSources := last.2
    draftExcerpt := if doc_content ≠ "" then takeRight 8000 doc_content else ""
    latestDate := ctx.eld last.2 }

/-- nodes.generate_single_doc (lines 269-413): build the prompt, call the
synthesis collaborator once, and return `(doc_id, content)` — replacing the
content with the fixed error placeholder when the call raises. The second
component is the list of collaborator calls the task made. -/
def generate_single_doc (ctx : GenCtx) (synth : SynthCall → Except String String)
    (docId : String) (allCandidates : List String) : (String × String) × List SynthCall :=
  let call := gsdCall ctx docId allCandidates
  match synth call with
  | Except.ok c => ((docId, c), [call])
  | Except.error e => ((docId, "# Error\nFailed to generate document: " ++ e), [call])

/-- nodes.generate_docs (lines 248-425): one task per planned topic, results
gathered in plan order into the generated-content dict. -/
def generate_docs (ctx : GenCtx) (synth : SynthCall → Except String String)
    (docCandidates : List (String × List String)) (plan : List (String × String)) :
    List (String × String) :=
  plan.map (fun pr =>
    (generate_single_doc ctx synth pr.1 ((dictLookup pr.1 docCandidates).getD [])).1)

/-! ## Emission accounting and demonstration inputs -/

/-- Characters the batcher counts against the budget for a blob list. -/
def sumCounted (l : List Emitted) : Nat := (l.map Emitted.counted).sum

/-- The budget discipline read_relevant_files actually maintains: each blob
except the final truncation marker is begun while the running counted total
is still strictly below the budget (the blob itself may then push the total
past it), and the running total is the sum of the counted sizes so far. -/
def BudgetOk (maxTotal : Nat) : Nat → List Emitted → Prop
  | _, [] => True
  | total, e :: rest =>
    (e = truncMarkerE ∨ total < maxTotal) ∧ BudgetOk maxTotal (total + e.counted) rest

/-- Concrete run context for the dedup witness: one batch holding two
byte-identical files that share fingerprint "h1". -/
def dedupDemoFs : String → Option SourceFile := fun p =>
  if p = "dup1.txt" then some { content := "SHARED\n", size := 7, gitDate := "Unknown" }
  else if p = "dup2.txt" then some { content := "SHARED\n", size := 7, gitDate := "Unknown" }
  else none

/-- Batch configuration for the dedup witness (the non-RAG defaults). -/
def dedupDemoCfg : BatchCfg :=
  { maxTotalChars := 200000, chunkSize := DEFAULT_CHUNK_SIZE,
    maxChunksPerFile := DEFAULT_MAX_CHUNKS_PER_FILE, smartMode := false }

/-- Hash index for the dedup witness. -/
def dedupDemoHI : Option (List (String × List String)) :=
  some [("h1", ["dup1.txt", "dup2.txt"])]

/-- The blobs of the dedup witness batch. -/
def dedupDemoEntries : List Emitted :=
  read_relevant_files_entries dedupDemoFs dedupDemoCfg id dedupDemoHI
    (fun _ => none) ["dup1.txt", "dup2.txt"]

/-- The single blob the dedup witness batch emits. -/
def dedupDemoE : Emitted := dedupDemoEntries.headD truncMarkerE

/-- Run context for the generation-stage demonstrations: three small files
whose known sizes order them a, b, c; two candidates per batch. -/
def genDemoCtx : GenCtx :=
  { fs := fun p =>
      if p = "a.txt" then some { content := "ALPHA\n", size := 6, gitDate := "Unknown" }
      else if p = "b.txt" then some { content := "BETA\n", size := 5, gitDate := "Unknown" }
      else if p = "c.txt" then some { content := "GAMMA\n", size := 6, gitDate := "Unknown" }
      else none
    hashIndex := none
    sizeMap := fun p =>
      if p = "a.txt" then some 1 else if p = "b.txt" then some 2
      else if p = "c.txt" then some 3 else none
    es := id
    eld := fun _ => "2026-01-01"
    depsContent := ""
    maxDefaultCandidates := 2
    maxRagCandidates := 200 }

/-- A synthesis collaborator that always succeeds. -/
def okSynth : SynthCall → Except String String := fun _ => Except.ok "DOC"

/-- Run context for the cross-batch dedup counterexample: two byte-identical
candidate files sharing fingerprint "h1", one candidate per batch. -/
def crossBatchCtx : GenCtx :=
  { fs := fun p =>
      if p = "dup1.txt" then some { content := "SHARED\n", size := 7, gitDate := "Unknown" }
      else if p = "dup2.txt" then some { content := "SHARED\n", size := 7, gitDate := "Unknown" }
      else none
    hashIndex := some [("h1", ["dup1.txt", "dup2.txt"])]
    sizeMap := fun p =>
      if p = "dup1.txt" then some 7 else if p = "dup2.txt" then some 7 else none
    es := id
    eld := fun _ => "2026-01-01"
    depsContent := ""
    maxDefaultCandidates := 1
    maxRagCandidates := 200 }

/-! ## Planning step (src/src/nodes.py, plan_documentation) -/

/-- One explicitly configured page of .cerebro/cerebro.json (models.Page);
only the fields the planning step reads. -/
structure Page where
  title : String
  purpose : String
deriving DecidableEq, Repr

/-- One iteration of the candidate loop of plan_documentation (nodes.py
lines 191-197): mandatory topics are skipped, topics with evidence get a
"Found n relevant files" reason. -/
def heuristicStep (plan : List (String × String)) (kv : String × List String) :
    List (String × String) :=
  if kv.1 ∈ ["100", "200"] then plan
  else if kv.2 ≠ [] then
    dictInsert kv.1 ("Found " ++ toString kv.2.length ++ " relevant files") plan
  else plan

/-- The heuristic plan (nodes.py lines 185-197): the mandatory topics plus
every evidence-backed topic. -/
def heuristic_plan (docCandidates : List (String × List String)) : List (String × String) :=
  docCandidates.foldl heuristicStep
    [("100", "Always generate architecture overview"),
     ("200", "Always generate business/domain overview")]

/-- The default planning path (nodes.py lines 178-245): build the heuristic
plan, attempt the external refinement — `refine` is the parsed JSON dict the
collaborator returns, or an error when the call or the parse raises, in
which case the heuristic plan is kept — re-add heuristic entries the
refinement omitted, and finally drop topic "000" if present. -/
def plan_documentation_default (docCandidates : List (String × List String))
    (refine : Except Unit (List (String × String))) : List (String × String) :=
  let plan := heuristic_plan docCandidates
  let plan2 :=
    match refine with
    | Except.error _ => plan
    | Except.ok refined =>
      dictUpdate refined
        (plan.filter (fun kv => decide (kv.1 ∉ refined.map Prod.fst)))
  if "000" ∈ plan2.map Prod.fst then dictErase "000" plan2 else plan2

/-- nodes.plan_documentation (lines 134-245): when the repo configuration
explicitly lists pages, the plan is exactly those pages under synthetic
"custom-NNN" ids; otherwise the default heuristic-plus-refinement path
runs. -/
def plan_documentation (configPages : Option (List Page))
    (docCandidates : List (String × List String))
    (refine : Except Unit (List (String × String))) : List (String × String) :=
  match configPages with
  | some pages =>
    if pages ≠ [] then
      pages.enum.map (fun ip =>
        ("custom-" ++ pyPad3 ip.1,
         "Explicitly requested page: " ++ ip.2.title ++ ". Purpose: " ++ ip.2.purpose))
    else plan_documentation_default docCandidates refine
  | none => plan_documentation_default docCandidates refine

/-! ## Link rewriting (src/src/nodes.py, fix_linkages) -/

/-- The even-index-only transformation of fix_linkages (nodes.py lines
458-461): `for i in range(len(parts)): if i % 2 == 0: parts[i] = sub(parts[i])`. -/
def transformParts (sub : String → String) : Nat → List String → List String
  | _, [] => []
  | i, part :: ps => (if i % 2 = 0 then sub part else part) :: transformParts sub (i + 1) ps

/-- nodes.fix_linkages (lines 428-467) for one document: split on the code
fence delimiter, apply the path-to-link substitution `sub` (the re.sub over
recognised project-relative paths) to even-indexed parts only, and rejoin. -/
def fix_linkages (sub : String → String) (content : String) : String :=
  String.intercalate "```" (transformParts sub 0 (content.splitOn "```"))

/-- fix_linkages over the whole generated-content dict. -/
def fix_linkages_all (sub : String → String) (generated : List (String × String)) :
    List (String × String) :=
  generated.map (fun pr => (pr.1, fix_linkages sub pr.2))

end Cerebro

namespace Cerebro

/-! ## Theorems about the scanner record fields -/

/-- C6: a scanned record (with the per-file read succeeding, `some h`)
carries a content hash exactly when it is classified text and its size is at
most the hash cap; non-text records and oversized records never carry one. -/
theorem scanner_hash_iff (rel_path : String) (size : Nat) (mtime ext : String)
    (is_text : Bool) (h : String) :
    ((mkFileRecord rel_path size mtime ext is_text (some h)).sha256 ≠ none ↔
      (is_text = true ∧ size ≤ HASH_SIZE_CAP)) ∧
    (is_text = false → (mkFileRecord rel_path size mtime ext is_text (some h)).sha256 = none) ∧
    ((mkFileRecord rel_path size mtime ext is_text (some h)).oversized = true →
      (mkFileRecord rel_path size mtime ext is_text (some h)).sha256 = none) := by
  unfold mkFileRecord safe_hash
  by_cases hle : size ≤ HASH_SIZE_CAP
  · have hngt : ¬ size > HASH_SIZE_CAP := Nat.not_lt.mpr hle
    have hnov : ¬ size > FILE_SIZE_HARD_CAP := by
      unfold HASH_SIZE_CAP at hle
      unfold FILE_SIZE_HARD_CAP
      omega
    cases is_text <;> simp [hngt, hle, hnov]
  · have hgt : size > HASH_SIZE_CAP := Nat.lt_of_not_le hle
    cases is_text <;> simp [hgt, hle]

/-- Witness for `scanner_hash_iff` at a concrete record. -/
theorem scanner_hash_iff_witness :
    ((mkFileRecord "a.py" 10 "Unknown" "py" true (some "h")).sha256 ≠ none ↔
      (true = true ∧ 10 ≤ HASH_SIZE_CAP)) ∧
    (true = false → (mkFileRecord "a.py" 10 "Unknown" "py" true (some "h")).sha256 = none) ∧
    ((mkFileRecord "a.py" 10 "Unknown" "py" true (some "h")).oversized = true →
      (mkFileRecord "a.py" 10 "Unknown" "py" true (some "h")).sha256 = none) :=
  scanner_hash_iff "a.py" 10 "Unknown" "py" true "h"

/-- Arithmetic fact used for C7: the scanner's `size // c + (1 if size % c else 0)`
equals the ceiling `(size + c - 1) / c` for the 128 KB chunk size. -/
theorem chunk_ceil_aux (size : Nat) :
    size / (128 * 1024) + (if size % (128 * 1024) ≠ 0 then 1 else 0) =
      (size + 128 * 1024 - 1) / (128 * 1024) := by
  by_cases hm : size % (128 * 1024) = 0
  · rw [if_neg (by simp [hm])]
    omega
  · rw [if_pos hm]
    omega

/-- C7: `oversized` is set exactly when the size exceeds the 2 MB hard cap,
and `chunk_count` is the exact ceiling of size over the 128 KB chunk size
when oversized, 0 otherwise. -/
theorem scanner_oversized_chunk_count (rel_path : String) (size : Nat)
    (mtime ext : String) (is_text : Bool) (hashResult : Option String) :
    (mkFileRecord rel_path size mtime ext is_text hashResult).oversized =
      decide (size > FILE_SIZE_HARD_CAP) ∧
    (mkFileRecord rel_path size mtime ext is_text hashResult).chunk_count =
      (if size > FILE_SIZE_HARD_CAP then
        (size + DEFAULT_CHUNK_SIZE - 1) / DEFAULT_CHUNK_SIZE else 0) := by
  refine ⟨rfl, ?_⟩
  show (if size > FILE_SIZE_HARD_CAP then
      size / DEFAULT_CHUNK_SIZE + (if size % DEFAULT_CHUNK_SIZE ≠ 0 then 1 else 0)
    else 0) = _
  unfold DEFAULT_CHUNK_SIZE
  by_cases hov : size > FILE_SIZE_HARD_CAP
  · rw [if_pos hov, if_pos hov, chunk_ceil_aux]
  · rw [if_neg hov, if_neg hov]

/-! ## Theorems about the candidate selector -/

/-- The catch-all topic's list is the concatenation of the per-record
appends of rule "980". -/
theorem candidatesFor_980 (file_index : List FileRecord) :
    candidatesFor file_index "980" =
      file_index.flatMap (fun r => topicAppends r "980") := rfl

/-- C8: over a file index with unique paths (the scanner's invariant), the
catch-all topic "980" receives the path of every text-classified record and
the path of no record classified non-text. -/
theorem selector_catch_all (file_index : List FileRecord)
    (hnd : (file_index.map FileRecord.path).Nodup) :
    (∀ r ∈ file_index, r.is_text = true → r.path ∈ candidatesFor file_index "980") ∧
    (∀ r ∈ file_index, r.is_text = false → r.path ∉ candidatesFor file_index "980") := by
  constructor
  · intro r hr ht
    rw [candidatesFor_980]
    exact List.mem_flatMap.mpr ⟨r, hr, by simp [topicAppends, ht]⟩
  · intro r hr ht hmem
    rw [candidatesFor_980] at hmem
    obtain ⟨r2, hr2, hm2⟩ := List.mem_flatMap.mp hmem
    by_cases h2 : r2.is_text
    · simp only [topicAppends, h2, if_pos, List.mem_singleton] at hm2
      have hrr : r2 = r :=
        List.inj_on_of_nodup_map hnd hr2 hr (by rw [hm2])
      rw [hrr, ht] at h2
      exact Bool.false_ne_true h2
    · simp [topicAppends, h2] at hm2

/-- Witness for `selector_catch_all` at a concrete two-record index. -/
theorem selector_catch_all_witness :
    (∀ r ∈ [mkFileRecord "a.md" 3 "Unknown" "md" true (some "h1"),
            mkFileRecord "b.bin" 3 "Unknown" "bin" false none], r.is_text = true →
       r.path ∈ candidatesFor [mkFileRecord "a.md" 3 "Unknown" "md" true (some "h1"),
                               mkFileRecord "b.bin" 3 "Unknown" "bin" false none] "980") ∧
    (∀ r ∈ [mkFileRecord "a.md" 3 "Unknown" "md" true (some "h1"),
            mkFileRecord "b.bin" 3 "Unknown" "bin" false none], r.is_text = false →
       r.path ∉ candidatesFor [mkFileRecord "a.md" 3 "Unknown" "md" true (some "h1"),
                               mkFileRecord "b.bin" 3 "Unknown" "bin" false none] "980") :=
  selector_catch_all
    [mkFileRecord "a.md" 3 "Unknown" "md" true (some "h1"),
     mkFileRecord "b.bin" 3 "Unknown" "bin" false none] (by decide)

/-- C10: a record whose lowercased path contains the keyword "api" and whose
extension is in the "311" extension set is appended to topic "311" twice —
once by the keyword rule and once by the extension rule. -/
theorem selector_311_duplicate :
    candidatesFor
      [{ path := "api.ts", size := 10, mtime := "Unknown", ext := "ts",
         is_text := true, sha256 := none, oversized := false, chunk_count := 0 }]
      "311" = ["api.ts", "api.ts"] := by decide

/-! ## Budget behaviour of the content batcher -/

theorem budgetOk_append {maxTotal : Nat} : ∀ {l1 : List Emitted} {total : Nat}
    {l2 : List Emitted}, BudgetOk maxTotal total l1 →
    BudgetOk maxTotal (total + sumCounted l1) l2 → BudgetOk maxTotal total (l1 ++ l2) := by
  intro l1
  induction l1 with
  | nil =>
    intro total l2 _ h2
    simpa [sumCounted] using h2
  | cons e t ih =>
    intro total l2 h1 h2
    refine ⟨h1.1, ih h1.2 ?_⟩
    have : total + sumCounted (e :: t) = total + e.counted + sumCounted t := by
      simp [sumCounted]
      omega
    rw [this] at h2
    exact h2

theorem chunkLoop_budget (cfg : BatchCfg) (fc rp gd : String) : ∀ (fuel chunkIdx offset total : Nat),
    BudgetOk cfg.maxTotalChars total (chunkLoop cfg fc rp gd fuel chunkIdx offset total).1 ∧
    (chunkLoop cfg fc rp gd fuel chunkIdx offset total).2 =
      total + sumCounted (chunkLoop cfg fc rp gd fuel chunkIdx offset total).1 := by
  intro fuel
  induction fuel with
  | zero =>
    intro chunkIdx offset total
    simp [chunkLoop, BudgetOk, sumCounted]
  | succ n ih =>
    intro chunkIdx offset total
    simp only [chunkLoop]
    by_cases h1 : total ≥ cfg.maxTotalChars
    · simp [h1, BudgetOk, sumCounted]
    · rw [if_neg h1]
      by_cases h2 : strSlice fc offset cfg.chunkSize = ""
      · simp [h2, BudgetOk, sumCounted]
      · rw [if_neg h2]
        have hrec := ih (chunkIdx + 1) (offset + cfg.chunkSize)
          (total + (numberChunkGo cfg.maxTotalChars total 1 0
            (splitlines (strSlice fc offset cfg.chunkSize))).2)
        constructor
        · exact ⟨Or.inr (lt_of_not_ge h1), hrec.1⟩
        · rw [hrec.2]
          simp [sumCounted]
          omega

theorem rrfBody_budget (fs : String → Option SourceFile) (cfg : BatchCfg)
    (es : String → String) (sizeMap : String → Option Nat) (p : String)
    (recurse : Nat → List String → List Emitted) (total : Nat) (seen2 : List String)
    (hrec : ∀ t s, BudgetOk cfg.maxTotalChars t (recurse t s))
    (hlt : total < cfg.maxTotalChars) :
    BudgetOk cfg.maxTotalChars total (rrfBody fs cfg es sizeMap p recurse total seen2) := by
  unfold rrfBody
  cases hfs : fs p with
  | none => exact hrec total seen2
  | some f =>
    dsimp only
    by_cases hbig : (sizeMap p).getD f.size > cfg.chunkSize
    · rw [if_pos hbig]
      have hcl := chunkLoop_budget cfg f.content p f.gitDate cfg.maxChunksPerFile 0 0 total
      refine budgetOk_append hcl.1 ?_
      rw [← hcl.2]
      exact hrec _ seen2
    · rw [if_neg hbig]
      by_cases hfit : (if cfg.smartMode && strEndsWith p ".py" then
          (es (String.join (splitlinesKeep f.content))).length
        else (sizeMap p).getD f.size) ≤ cfg.chunkSize
      · rw [if_pos hfit]
        exact ⟨Or.inr hlt, hrec _ seen2⟩
      · rw [if_neg hfit]
        exact hrec total seen2

theorem rrfGo_budget (fs : String → Option SourceFile) (cfg : BatchCfg)
    (es : String → String) (phm : String → Option String)
    (sizeMap : String → Option Nat) : ∀ (paths : List String) (total : Nat)
    (seen : List String),
    BudgetOk cfg.maxTotalChars total (rrfGo fs cfg es phm sizeMap paths total seen) := by
  intro paths
  induction paths with
  | nil =>
    intro total seen
    simp [rrfGo, BudgetOk]
  | cons p rest ih =>
    intro total seen
    simp only [rrfGo]
    by_cases h1 : total ≥ cfg.maxTotalChars
    · simp [h1, BudgetOk, sumCounted]
    · rw [if_neg h1]
      cases hd : dedupStep phm p seen with
      | none => exact ih total seen
      | some seen2 =>
        exact rrfBody_budget fs cfg es sizeMap p _ total seen2
          (fun t s => ih t s) (lt_of_not_ge h1)

/-- C2 counterexample: with a per-topic budget of 5 characters and a single
six-byte candidate file, the batcher emits blobs totalling far more than the
budget — the per-file header and numbered lines are appended before any
budget check can fire, so the concatenated blob set exceeds the configured
budget. -/
theorem batcher_budget_counterexample :
    5 < sumCounted
        (read_relevant_files_entries
          (fun p => if p = "a.txt" then
            some { content := "hello\n", size := 6, gitDate := "Unknown" } else none)
          { maxTotalChars := 5, chunkSize := DEFAULT_CHUNK_SIZE,
            maxChunksPerFile := DEFAULT_MAX_CHUNKS_PER_FILE, smartMode := false }
          id none (fun _ => none) ["a.txt"]) ∧
    5 < (read_relevant_files
          (fun p => if p = "a.txt" then
            some { content := "hello\n", size := 6, gitDate := "Unknown" } else none)
          { maxTotalChars := 5, chunkSize := DEFAULT_CHUNK_SIZE,
            maxChunksPerFile := DEFAULT_MAX_CHUNKS_PER_FILE, smartMode := false }
          id none (fun _ => none) ["a.txt"]).length := by decide

/-- C2 amended: the batcher does not keep the concatenated blobs within the
budget; what it guarantees is the discipline `BudgetOk`: every blob except
the final truncation marker is begun only while the running counted
character total (numbered lines only — headers and markers are not counted)
is still strictly below the budget, so the counted total can overshoot by at
most the final blob's contribution, plus uncounted header and marker text. -/
theorem batcher_budget_discipline (fs : String → Option SourceFile) (cfg : BatchCfg)
    (es : String → String) (hashIndex : Option (List (String × List String)))
    (sizeMap : String → Option Nat) (candidatePaths : List String) :
    BudgetOk cfg.maxTotalChars 0
      (read_relevant_files_entries fs cfg es hashIndex sizeMap candidatePaths) :=
  rrfGo_budget fs cfg es (phmOf hashIndex) sizeMap
    (candidatePaths.filter (fun p => (fs p).isSome)) 0 []

/-! ## Deduplication behaviour of the content batcher -/

theorem chunkLoop_paths (cfg : BatchCfg) (fc rp gd : String) :
    ∀ (fuel chunkIdx offset total : Nat),
    ∀ e ∈ (chunkLoop cfg fc rp gd fuel chunkIdx offset total).1, e.path = rp := by
  intro fuel
  induction fuel with
  | zero =>
    intro chunkIdx offset total e he
    simp [chunkLoop] at he
  | succ n ih =>
    intro chunkIdx offset total e he
    simp only [chunkLoop] at he
    by_cases h1 : total ≥ cfg.maxTotalChars
    · simp [h1] at he
    · rw [if_neg h1] at he
      by_cases h2 : strSlice fc offset cfg.chunkSize = ""
      · simp [h2] at he
      · rw [if_neg h2] at he
        dsimp only at he
        rcases List.mem_cons.mp he with rfl | hmem
        · rfl
        · exact ih _ _ _ e hmem

theorem rrfBody_decomp (fs : String → Option SourceFile) (cfg : BatchCfg)
    (es : String → String) (sizeMap : String → Option Nat) (p : String)
    (recurse : Nat → List String → List Emitted) (total : Nat) (seen2 : List String) :
    ∃ hd t2, rrfBody fs cfg es sizeMap p recurse total seen2 = hd ++ recurse t2 seen2 ∧
      ∀ e ∈ hd, e.path = p := by
  unfold rrfBody
  cases hfs : fs p with
  | none => exact ⟨[], total, rfl, by simp⟩
  | some f =>
    dsimp only
    by_cases hbig : (sizeMap p).getD f.size > cfg.chunkSize
    · rw [if_pos hbig]
      refine ⟨(chunkLoop cfg f.content p f.gitDate cfg.maxChunksPerFile 0 0 total).1,
        (chunkLoop cfg f.content p f.gitDate cfg.maxChunksPerFile 0 0 total).2, rfl, ?_⟩
      exact fun e he => chunkLoop_paths cfg f.content p f.gitDate _ _ _ _ e he
    · rw [if_neg hbig]
      by_cases hfit : (if cfg.smartMode && strEndsWith p ".py" then
          (es (String.join (splitlinesKeep f.content))).length
        else (sizeMap p).getD f.size) ≤ cfg.chunkSize
      · rw [if_pos hfit]
        exact ⟨[_], _, rfl, by simp⟩
      · rw [if_neg hfit]
        exact ⟨[], total, rfl, by simp⟩

theorem dedupStep_some_facts {phm : String → Option String} {p : String}
    {seen seen2 : List String} (h : dedupStep phm p seen = some seen2) :
    (∀ x ∈ seen, x ∈ seen2) ∧
    (∀ sha0, phm p = some sha0 → sha0 ≠ "" → sha0 ∉ seen ∧ seen2 = sha0 :: seen) ∧
    (seen2 = seen ∨ ∃ sha0, phm p = some sha0 ∧ sha0 ≠ "" ∧ seen2 = sha0 :: seen) := by
  unfold dedupStep at h
  cases hphm : phm p with
  | none =>
    rw [hphm] at h
    dsimp only at h
    injection h with h2
    subst h2
    refine ⟨fun x hx => hx, ?_, Or.inl rfl⟩
    intro sha0 hc
    exact absurd hc (by simp)
  | some sha0 =>
    rw [hphm] at h
    dsimp only at h
    by_cases hne : sha0 ≠ ""
    · rw [if_pos hne] at h
      by_cases hmem : sha0 ∈ seen
      · rw [if_pos hmem] at h
        cases h
      · rw [if_neg hmem] at h
        injection h with h2
        subst h2
        refine ⟨fun x hx => List.mem_cons_of_mem _ hx, ?_, Or.inr ⟨sha0, rfl, hne, rfl⟩⟩
        intro sha1 hc hne1
        injection hc with hc2
        subst hc2
        exact ⟨hmem, rfl⟩
    · rw [if_neg hne] at h
      injection h with h2
      subst h2
      refine ⟨fun x hx => hx, ?_, Or.inl rfl⟩
      intro sha1 hc hne1
      injection hc with hc2
      subst hc2
      exact absurd (not_ne_iff.mp hne) hne1

theorem rrfGo_seen_absorb (fs : String → Option SourceFile) (cfg : BatchCfg)
    (es : String → String) (phm : String → Option String)
    (sizeMap : String → Option Nat) (sha : String) (hsha : sha ≠ "") :
    ∀ (paths : List String) (total : Nat) (seen : List String), sha ∈ seen →
    ∀ e ∈ rrfGo fs cfg es phm sizeMap paths total seen, e ≠ truncMarkerE →
      phm e.path ≠ some sha := by
  intro paths
  induction paths with
  | nil =>
    intro total seen _ e he
    simp [rrfGo] at he
  | cons p rest ih =>
    intro total seen hseen e he hmark
    simp only [rrfGo] at he
    by_cases h1 : total ≥ cfg.maxTotalChars
    · rw [if_pos h1] at he
      simp only [List.mem_singleton] at he
      exact absurd he hmark
    · rw [if_neg h1] at he
      cases hd : dedupStep phm p seen with
      | none =>
        rw [hd] at he
        exact ih total seen hseen e he hmark
      | some seen2 =>
        rw [hd] at he
        dsimp only at he
        obtain ⟨hdl, t2, heq, hpaths⟩ := rrfBody_decomp fs cfg es sizeMap p
          (fun t s => rrfGo fs cfg es phm sizeMap rest t s) total seen2
        rw [heq] at he
        have hfacts := dedupStep_some_facts hd
        rcases List.mem_append.mp he with hin | hin
        · rw [hpaths e hin]
          intro hcon
          obtain ⟨hnotseen, _⟩ := hfacts.2.1 sha hcon hsha
          exact hnotseen hseen
        · exact ih t2 seen2 (hfacts.1 sha hseen) e hin hmark

theorem rrfGo_dedup_aux (fs : String → Option SourceFile) (cfg : BatchCfg)
    (es : String → String) (phm : String → Option String)
    (sizeMap : String → Option Nat) (sha : String) (hsha : sha ≠ "") :
    ∀ (paths : List String) (total : Nat) (seen : List String), sha ∉ seen →
    ∀ e1 ∈ rrfGo fs cfg es phm sizeMap paths total seen,
    ∀ e2 ∈ rrfGo fs cfg es phm sizeMap paths total seen,
    e1 ≠ truncMarkerE → e2 ≠ truncMarkerE →
    phm e1.path = some sha → phm e2.path = some sha → e1.path = e2.path := by
  intro paths
  induction paths with
  | nil =>
    intro total seen _ e1 he1
    simp [rrfGo] at he1
  | cons p rest ih =>
    intro total seen hnot e1 he1 e2 he2 hm1 hm2 hh1 hh2
    simp only [rrfGo] at he1 he2
    by_cases h1 : total ≥ cfg.maxTotalChars
    · rw [if_pos h1] at he1
      simp only [List.mem_singleton] at he1
      exact absurd he1 hm1
    · rw [if_neg h1] at he1 he2
      cases hd : dedupStep phm p seen with
      | none =>
        rw [hd] at he1 he2
        exact ih total seen hnot e1 he1 e2 he2 hm1 hm2 hh1 hh2
      | some seen2 =>
        rw [hd] at he1 he2
        dsimp only at he1 he2
        obtain ⟨hdl, t2, heq, hpaths⟩ := rrfBody_decomp fs cfg es sizeMap p
          (fun t s => rrfGo fs cfg es phm sizeMap rest t s) total seen2
        rw [heq] at he1 he2
        have hfacts := dedupStep_some_facts hd
        rcases List.mem_append.mp he1 with hin1 | hin1 <;>
          rcases List.mem_append.mp he2 with hin2 | hin2
        · rw [hpaths e1 hin1, hpaths e2 hin2]
        · exfalso
          rw [hpaths e1 hin1] at hh1
          obtain ⟨_, hseen2⟩ := hfacts.2.1 sha hh1 hsha
          have hmem2 : sha ∈ seen2 := by
            rw [hseen2]
            exact List.mem_cons_self _ _
          exact rrfGo_seen_absorb fs cfg es phm sizeMap sha hsha rest t2 seen2 hmem2
            e2 hin2 hm2 hh2
        · exfalso
          rw [hpaths e2 hin2] at hh2
          obtain ⟨_, hseen2⟩ := hfacts.2.1 sha hh2 hsha
          have hmem2 : sha ∈ seen2 := by
            rw [hseen2]
            exact List.mem_cons_self _ _
          exact rrfGo_seen_absorb fs cfg es phm sizeMap sha hsha rest t2 seen2 hmem2
            e1 hin1 hm1 hh1
        · rcases hfacts.2.2 with hsame | ⟨sha0, hphm0, hne0, hcons⟩
          · subst hsame
            exact ih t2 _ hnot e1 hin1 e2 hin2 hm1 hm2 hh1 hh2
          · subst hcons
            by_cases hs : sha0 = sha
            · subst hs
              exfalso
              exact rrfGo_seen_absorb fs cfg es phm sizeMap sha0 hne0 rest t2
                (sha0 :: seen) (List.mem_cons_self _ _) e1 hin1 hm1 hh1
            · have hnot2 : sha ∉ sha0 :: seen := by
                intro hcon
                rcases List.mem_cons.mp hcon with h | h
                · exact hs h.symm
                · exact hnot h
              exact ih t2 (sha0 :: seen) hnot2 e1 hin1 e2 hin2 hm1 hm2 hh1 hh2

/-- C3 amended: within one invocation of the batcher (one batch), content
fingerprints are deduplicated — any two emitted blobs whose source paths
carry the same non-empty fingerprint in the hash index come from the same
path, so byte-identical duplicate files are read at most once per batch.
Across the batches of one topic the seen-set is rebuilt afresh, so the
per-topic version of the claim fails (see the counterexample). -/
theorem batcher_within_batch_dedup (fs : String → Option SourceFile) (cfg : BatchCfg)
    (es : String → String) (hashIndex : Option (List (String × List String)))
    (sizeMap : String → Option Nat) (candidatePaths : List String) (sha : String)
    (hsha : sha ≠ "") (e1 e2 : Emitted)
    (he1 : e1 ∈ read_relevant_files_entries fs cfg es hashIndex sizeMap candidatePaths)
    (he2 : e2 ∈ read_relevant_files_entries fs cfg es hashIndex sizeMap candidatePaths)
    (hm1 : e1 ≠ truncMarkerE) (hm2 : e2 ≠ truncMarkerE)
    (hh1 : phmOf hashIndex e1.path = some sha)
    (hh2 : phmOf hashIndex e2.path = some sha) : e1.path = e2.path :=
  rrfGo_dedup_aux fs cfg es (phmOf hashIndex) sizeMap sha hsha
    (candidatePaths.filter (fun p => (fs p).isSome)) 0 [] (by simp)
    e1 he1 e2 he2 hm1 hm2 hh1 hh2

/-- Witness for `batcher_within_batch_dedup` at the concrete duplicate pair. -/
theorem batcher_within_batch_dedup_witness :
    ("h1" : String) ≠ "" ∧ dedupDemoE.path = dedupDemoE.path :=
  ⟨by decide,
   batcher_within_batch_dedup dedupDemoFs dedupDemoCfg id dedupDemoHI (fun _ => none)
     ["dup1.txt", "dup2.txt"] "h1" (by decide) dedupDemoE dedupDemoE
     (by decide) (by decide) (by decide) (by decide) (by decide) (by decide)⟩

/-! ## Theorems about the generation orchestrator -/

/-- C1 (code bug demonstration): for a topic whose candidates split into two
batches, the task still makes exactly one synthesis call; that call carries
the label and sources of the *last* batch only, and its prior-draft excerpt
is empty — the loop body that should chain the batches was left outside the
loop (src/src/nodes.py lines 330-413). -/
theorem generation_single_call_code_bug :
    (gsdRelevantBatches genDemoCtx "720" ["a.txt", "b.txt", "c.txt"]).length = 2 ∧
    (generate_single_doc genDemoCtx okSynth "720" ["a.txt", "b.txt", "c.txt"]).2.length = 1 ∧
    ((generate_single_doc genDemoCtx okSynth "720" ["a.txt", "b.txt", "c.txt"]).2.headD
        { docId := "", batchLabel := "", newSources := "", draftExcerpt := "",
          latestDate := "" }).batchLabel = "2/2" ∧
    strContains
      ((generate_single_doc genDemoCtx okSynth "720" ["a.txt", "b.txt", "c.txt"]).2.headD
        { docId := "", batchLabel := "", newSources := "", draftExcerpt := "",
          latestDate := "" }).newSources "GAMMA" = true ∧
    strContains
      ((generate_single_doc genDemoCtx okSynth "720" ["a.txt", "b.txt", "c.txt"]).2.headD
        { docId := "", batchLabel := "", newSources := "", draftExcerpt := "",
          latestDate := "" }).newSources "ALPHA" = false ∧
    ((generate_single_doc genDemoCtx okSynth "720" ["a.txt", "b.txt", "c.txt"]).2.headD
        { docId := "", batchLabel := "", newSources := "", draftExcerpt := "",
          latestDate := "" }).draftExcerpt = "" := by decide

/-- C3 counterexample: two byte-identical candidates that share a hash-index
fingerprint but land in different batches of the same topic are BOTH read
and emitted — `seen_hashes` is rebuilt per batch, so the per-topic
deduplication the claim states does not hold. -/
theorem batcher_cross_batch_dedup_counterexample :
    (gsdRelevantBatches crossBatchCtx "720" ["dup1.txt", "dup2.txt"]).length = 2 ∧
    (gsdRelevantBatches crossBatchCtx "720" ["dup1.txt", "dup2.txt"]).map
        (fun b => strContains b.2 "SHARED") = [true, true] := by decide

/-- The first component of a generation task's result is its own topic id,
whether the synthesis call succeeds or fails. -/
theorem generate_single_doc_fst (ctx : GenCtx) (synth : SynthCall → Except String String)
    (docId : String) (allCandidates : List String) :
    (generate_single_doc ctx synth docId allCandidates).1.1 = docId := by
  unfold generate_single_doc
  dsimp only
  cases h : synth (gsdCall ctx docId allCandidates) <;> rfl

/-- C4: the generated-content map has exactly the planned topics as keys (in
plan order), each planned topic maps to the content its own task returned,
and a task whose synthesis call raises maps to the fixed error placeholder.
The plan is a Python dict, so its keys are distinct. -/
theorem generated_map_complete (ctx : GenCtx) (synth : SynthCall → Except String String)
    (docCandidates : List (String × List String)) (plan : List (String × String))
    (hnd : (plan.map Prod.fst).Nodup) :
    (generate_docs ctx synth docCandidates plan).map Prod.fst = plan.map Prod.fst ∧
    (∀ pr ∈ plan, dictLookup pr.1 (generate_docs ctx synth docCandidates plan) =
      some ((generate_single_doc ctx synth pr.1
        ((dictLookup pr.1 docCandidates).getD [])).1.2)) ∧
    (∀ docId cands e, synth (gsdCall ctx docId cands) = Except.error e →
      (generate_single_doc ctx synth docId cands).1.2 =
        "# Error\nFailed to generate document: " ++ e) := by
  refine ⟨?_, ?_, ?_⟩
  · unfold generate_docs
    rw [List.map_map]
    apply List.map_congr_left
    intro pr _
    exact generate_single_doc_fst ctx synth pr.1 _
  · induction plan with
    | nil =>
      intro pr hpr
      cases hpr
    | cons q rest ih =>
      intro pr hpr
      simp only [generate_docs, List.map_cons, dictLookup]
      rcases List.mem_cons.mp hpr with rfl | hmem
      · rw [if_pos (generate_single_doc_fst ctx synth pr.1 _)]
      · have hkey : ¬ ((generate_single_doc ctx synth q.1
            ((dictLookup q.1 docCandidates).getD [])).1.1 = pr.1) := by
          rw [generate_single_doc_fst]
          intro heq
          have hmap : pr.1 ∈ rest.map Prod.fst := List.mem_map_of_mem Prod.fst hmem
          rw [← heq] at hmap
          rw [List.map_cons, List.nodup_cons] at hnd
          exact hnd.1 hmap
        rw [if_neg hkey]
        have hnd2 : (rest.map Prod.fst).Nodup := by
          rw [List.map_cons, List.nodup_cons] at hnd
          exact hnd.2
        exact ih hnd2 pr hmem
  · intro docId cands e herr
    unfold generate_single_doc
    dsimp only
    rw [herr]

/-- Witness for `generated_map_complete` at a two-topic plan with one
failing and one succeeding task. -/
theorem generated_map_complete_witness :
    ((generate_docs genDemoCtx
        (fun c => if c.docId = "930" then Except.error "boom" else Except.ok "DOC")
        [] [("930", "r1"), ("720", "r2")]).map Prod.fst =
      [("930", "r1"), ("720", "r2")].map Prod.fst) ∧
    dictLookup "930" (generate_docs genDemoCtx
        (fun c => if c.docId = "930" then Except.error "boom" else Except.ok "DOC")
        [] [("930", "r1"), ("720", "r2")]) =
      some "# Error\nFailed to generate document: boom" ∧
    dictLookup "720" (generate_docs genDemoCtx
        (fun c => if c.docId = "930" then Except.error "boom" else Except.ok "DOC")
        [] [("930", "r1"), ("720", "r2")]) = some "DOC" := by
  have h := generated_map_complete genDemoCtx
    (fun c => if c.docId = "930" then Except.error "boom" else Except.ok "DOC")
    [] [("930", "r1"), ("720", "r2")] (by decide)
  refine ⟨h.1, ?_, ?_⟩
  · have h2 := h.2.1 ("930", "r1") (by decide)
    rw [h2]
    decide
  · have h2 := h.2.1 ("720", "r2") (by decide)
    rw [h2]
    decide

/-! ## Dictionary lemmas -/

theorem dictLookup_insert_self {β : Type} (k : String) (v : β) (d : List (String × β)) :
    dictLookup k (dictInsert k v d) = some v := by
  induction d with
  | nil => simp [dictInsert, dictLookup]
  | cons kv rest ih =>
    by_cases h : kv.1 = k
    · simp [dictInsert, dictLookup, h]
    · simp [dictInsert, dictLookup, h, ih]

theorem dictLookup_insert_ne {β : Type} (k k2 : String) (v : β) (d : List (String × β))
    (h : k2 ≠ k) : dictLookup k (dictInsert k2 v d) = dictLookup k d := by
  induction d with
  | nil => simp [dictInsert, dictLookup, h]
  | cons kv rest ih =>
    by_cases h2 : kv.1 = k2
    · simp [dictInsert, dictLookup, h2, h]
    · simp [dictInsert, dictLookup, h2, ih]

theorem mem_keys_insert {β : Type} (a k : String) (v : β) (d : List (String × β)) :
    a ∈ (dictInsert k v d).map Prod.fst ↔ a = k ∨ a ∈ d.map Prod.fst := by
  induction d with
  | nil => simp [dictInsert]
  | cons kv rest ih =>
    by_cases h : kv.1 = k
    · simp only [dictInsert, h, if_pos, ite_true, List.map_cons, List.mem_cons]
      tauto
    · simp only [dictInsert, h, ite_false, List.map_cons, List.mem_cons, ih]
      tauto

theorem dictLookup_eq_none_iff {β : Type} (k : String) (d : List (String × β)) :
    dictLookup k d = none ↔ k ∉ d.map Prod.fst := by
  induction d with
  | nil => simp [dictLookup]
  | cons kv rest ih =>
    by_cases h : kv.1 = k
    · simp [dictLookup, h]
    · simp [dictLookup, h, ih]
      tauto

theorem keys_insert_nodup {β : Type} (k : String) (v : β) (d : List (String × β))
    (h : (d.map Prod.fst).Nodup) : ((dictInsert k v d).map Prod.fst).Nodup := by
  induction d with
  | nil => simp [dictInsert]
  | cons kv rest ih =>
    rw [List.map_cons, List.nodup_cons] at h
    by_cases h2 : kv.1 = k
    · rw [show dictInsert k v (kv :: rest) = (k, v) :: rest from by
        simp [dictInsert, h2]]
      rw [List.map_cons, List.nodup_cons]
      rw [h2] at h
      exact h
    · rw [show dictInsert k v (kv :: rest) = kv :: dictInsert k v rest from by
        simp [dictInsert, h2]]
      rw [List.map_cons, List.nodup_cons]
      refine ⟨?_, ih h.2⟩
      rw [mem_keys_insert]
      push_neg
      exact ⟨h2, h.1⟩

theorem mem_keys_update_left {β : Type} (k : String) :
    ∀ (e d : List (String × β)), k ∈ d.map Prod.fst →
      k ∈ (dictUpdate d e).map Prod.fst := by
  intro e
  induction e with
  | nil => exact fun d h => h
  | cons kv rest ih =>
    intro d h
    rw [dictUpdate, List.foldl_cons]
    exact ih (dictInsert kv.1 kv.2 d) ((mem_keys_insert k kv.1 kv.2 d).mpr (Or.inr h))

theorem mem_keys_update_right {β : Type} (k : String) :
    ∀ (e d : List (String × β)), k ∈ e.map Prod.fst →
      k ∈ (dictUpdate d e).map Prod.fst := by
  intro e
  induction e with
  | nil =>
    intro d h
    simp at h
  | cons kv rest ih =>
    intro d h
    rw [dictUpdate, List.foldl_cons]
    rw [List.map_cons, List.mem_cons] at h
    rcases h with h | h
    · exact mem_keys_update_left k rest _
        ((mem_keys_insert k kv.1 kv.2 d).mpr (Or.inl h))
    · exact ih _ h

theorem dictLookup_update_of_notin_e {β : Type} (k : String) :
    ∀ (e d : List (String × β)), k ∉ e.map Prod.fst →
      dictLookup k (dictUpdate d e) = dictLookup k d := by
  intro e
  induction e with
  | nil => exact fun d _ => rfl
  | cons kv rest ih =>
    intro d h
    have h1 : kv.1 ≠ k := by
      intro heq
      exact h (by simp [heq])
    have h2 : k ∉ rest.map Prod.fst := fun hc => h (by simp [hc])
    rw [dictUpdate, List.foldl_cons]
    rw [show List.foldl (fun acc kv => dictInsert kv.1 kv.2 acc)
        (dictInsert kv.1 kv.2 d) rest = dictUpdate (dictInsert kv.1 kv.2 d) rest from rfl]
    rw [ih _ h2, dictLookup_insert_ne k kv.1 kv.2 d h1]

theorem dictLookup_update_of_notin_base {β : Type} (k : String) :
    ∀ (e d : List (String × β)), k ∉ d.map Prod.fst → (e.map Prod.fst).Nodup →
      dictLookup k (dictUpdate d e) = dictLookup k e := by
  intro e
  induction e with
  | nil =>
    intro d h _
    rw [show dictUpdate d ([] : List (String × β)) = d from rfl]
    rw [(dictLookup_eq_none_iff k d).mpr h]
    rfl
  | cons kv rest ih =>
    intro d h hnd
    rw [List.map_cons, List.nodup_cons] at hnd
    rw [dictUpdate, List.foldl_cons]
    rw [show List.foldl (fun acc kv => dictInsert kv.1 kv.2 acc)
        (dictInsert kv.1 kv.2 d) rest = dictUpdate (dictInsert kv.1 kv.2 d) rest from rfl]
    by_cases hk : kv.1 = k
    · subst hk
      rw [dictLookup_update_of_notin_e kv.1 rest _ hnd.1, dictLookup_insert_self]
      simp [dictLookup]
    · have h2 : k ∉ (dictInsert kv.1 kv.2 d).map Prod.fst := by
        rw [mem_keys_insert]
        push_neg
        exact ⟨fun heq => hk heq.symm, h⟩
      rw [ih _ h2 hnd.2]
      simp [dictLookup, hk]

theorem dictLookup_filter_key {β : Type} (P : String → Bool) (k : String)
    (d : List (String × β)) :
    dictLookup k (d.filter (fun kv => P kv.1)) =
      if P k then dictLookup k d else none := by
  induction d with
  | nil => simp [dictLookup]
  | cons kv rest ih =>
    rw [List.filter_cons]
    by_cases hp : P kv.1 = true
    · rw [if_pos hp]
      by_cases hk : kv.1 = k
      · subst hk
        simp [dictLookup, hp]
      · simp [dictLookup, hk, ih]
    · rw [if_neg hp]
      by_cases hk : kv.1 = k
      · subst hk
        rw [ih, if_neg hp, if_neg hp]
      · simp [dictLookup, hk, ih]

theorem dictLookup_erase_ne {β : Type} (k k0 : String) (h : k ≠ k0)
    (d : List (String × β)) : dictLookup k (dictErase k0 d) = dictLookup k d := by
  unfold dictErase
  rw [dictLookup_filter_key (fun a => decide (a ≠ k0)) k d]
  simp [h]

/-! ## Theorems about the planning step -/

theorem heuristic_fold_lookup (k : String) (v : String) (hk : k = "100" ∨ k = "200") :
    ∀ (dc : List (String × List String)) (acc : List (String × String)),
      dictLookup k acc = some v →
      dictLookup k (dc.foldl heuristicStep acc) = some v := by
  intro dc
  induction dc with
  | nil => exact fun acc h => h
  | cons kv rest ih =>
    intro acc h
    rw [List.foldl_cons]
    apply ih
    unfold heuristicStep
    by_cases h1 : kv.1 ∈ (["100", "200"] : List String)
    · rw [if_pos h1]
      exact h
    · rw [if_neg h1]
      by_cases h2 : kv.2 ≠ []
      · rw [if_pos h2, dictLookup_insert_ne]
        · exact h
        · intro heq
          apply h1
          rcases hk with hk | hk <;> rw [heq, hk] <;> simp
      · rw [if_neg h2]
        exact h

theorem heuristic_lookup_100 (dc : List (String × List String)) :
    dictLookup "100" (heuristic_plan dc) = some "Always generate architecture overview" :=
  heuristic_fold_lookup "100" _ (Or.inl rfl) dc _ rfl

theorem heuristic_lookup_200 (dc : List (String × List String)) :
    dictLookup "200" (heuristic_plan dc) = some "Always generate business/domain overview" :=
  heuristic_fold_lookup "200" _ (Or.inr rfl) dc _ rfl

theorem heuristic_fold_keys (a : String) :
    ∀ (dc : List (String × List String)) (acc : List (String × String)),
      a ∈ (dc.foldl heuristicStep acc).map Prod.fst →
      a ∈ acc.map Prod.fst ∨ a ∈ dc.map Prod.fst := by
  intro dc
  induction dc with
  | nil => exact fun acc h => Or.inl h
  | cons kv rest ih =>
    intro acc h
    rw [List.foldl_cons] at h
    rcases ih _ h with h2 | h2
    · unfold heuristicStep at h2
      by_cases h1 : kv.1 ∈ (["100", "200"] : List String)
      · rw [if_pos h1] at h2
        exact Or.inl h2
      · rw [if_neg h1] at h2
        by_cases h3 : kv.2 ≠ []
        · rw [if_pos h3] at h2
          rcases (mem_keys_insert a kv.1 _ acc).mp h2 with h4 | h4
          · exact Or.inr (by simp [h4])
          · exact Or.inl h4
        · rw [if_neg h3] at h2
          exact Or.inl h2
    · exact Or.inr (List.mem_cons_of_mem _ h2)

theorem heuristic_fold_nodup :
    ∀ (dc : List (String × List String)) (acc : List (String × String)),
      (acc.map Prod.fst).Nodup → ((dc.foldl heuristicStep acc).map Prod.fst).Nodup := by
  intro dc
  induction dc with
  | nil => exact fun acc h => h
  | cons kv rest ih =>
    intro acc h
    rw [List.foldl_cons]
    apply ih
    unfold heuristicStep
    by_cases h1 : kv.1 ∈ (["100", "200"] : List String)
    · rw [if_pos h1]
      exact h
    · rw [if_neg h1]
      by_cases h2 : kv.2 ≠ []
      · rw [if_pos h2]
        exact keys_insert_nodup kv.1 _ acc h
      · rw [if_neg h2]
        exact h

theorem heuristic_keys_nodup (dc : List (String × List String)) :
    ((heuristic_plan dc).map Prod.fst).Nodup :=
  heuristic_fold_nodup dc _ (by decide)

/-- The selector's key set is exactly the fixed topic-id list. -/
theorem select_doc_candidates_keys (file_index : List FileRecord) :
    (select_doc_candidates file_index).map Prod.fst = DOC_IDS := by
  unfold select_doc_candidates
  rw [List.map_map]
  exact List.map_id DOC_IDS ▸ rfl

theorem heuristic_no_000 (file_index : List FileRecord) :
    "000" ∉ ((heuristic_plan (select_doc_candidates file_index)).map Prod.fst) := by
  intro h
  rcases heuristic_fold_keys "000" (select_doc_candidates file_index) _ h with h2 | h2
  · revert h2
    decide
  · rw [select_doc_candidates_keys] at h2
    revert h2
    decide

/-- C5 counterexample: a successful refinement that supplies its own reason
for the mandatory topic "100" replaces the heuristic reason string, so "with
its heuristic reason strings unchanged" fails in that case. -/
theorem planner_refined_reason_counterexample :
    dictLookup "100" (plan_documentation none (select_doc_candidates [])
      (Except.ok [("100", "Refined by planner")])) = some "Refined by planner" ∧
    ("Refined by planner" : String) ≠ "Always generate architecture overview" := by
  constructor
  · rfl
  · decide

/-- C5 amended: when the refinement call fails the default planning path
returns the heuristic plan unmodified; in every case of the default path the
mandatory topics "100" and "200" are present in the returned plan; and their
heuristic reason strings are intact whenever the refinement failed or its
answer omitted them — but a successful refinement that itself lists a
mandatory topic replaces that topic's reason string (see the
counterexample). -/
theorem planner_fallback_amended (file_index : List FileRecord)
    (cands : List (String × List String)) (refined : List (String × String)) :
    (plan_documentation none (select_doc_candidates file_index) (Except.error ()) =
      heuristic_plan (select_doc_candidates file_index)) ∧
    (∀ refine, dictLookup "100" (plan_documentation none cands refine) ≠ none ∧
      dictLookup "200" (plan_documentation none cands refine) ≠ none) ∧
    ("100" ∉ refined.map Prod.fst →
      dictLookup "100" (plan_documentation none cands (Except.ok refined)) =
        some "Always generate architecture overview") ∧
    ("200" ∉ refined.map Prod.fst →
      dictLookup "200" (plan_documentation none cands (Except.ok refined)) =
        some "Always generate business/domain overview") := by
  have hmain : ∀ (k : String), k = "100" ∨ k = "200" → ∀ v,
      dictLookup k (heuristic_plan cands) = some v →
      (∀ refine, dictLookup k (plan_documentation none cands refine) ≠ none) ∧
      (k ∉ refined.map Prod.fst →
        dictLookup k (plan_documentation none cands (Except.ok refined)) = some v) := by
    intro k hk v hv
    have hk000 : k ≠ "000" := by
      rcases hk with hk | hk <;> rw [hk] <;> decide
    have hfinal : ∀ (p2 : List (String × String)),
        dictLookup k (if "000" ∈ p2.map Prod.fst then dictErase "000" p2 else p2) =
          dictLookup k p2 := by
      intro p2
      split
      · exact dictLookup_erase_ne k "000" hk000 p2
      · rfl
    have hfiltv : ∀ (rj : List (String × String)), k ∉ rj.map Prod.fst →
        dictLookup k ((heuristic_plan cands).filter
          (fun kv => decide (kv.1 ∉ rj.map Prod.fst))) = some v := by
      intro rj hin
      have hlf := dictLookup_filter_key
        (fun a => decide (a ∉ rj.map Prod.fst)) k (heuristic_plan cands)
      rw [if_pos (by simpa using hin)] at hlf
      exact hlf.trans hv
    constructor
    · intro refine
      show dictLookup k (plan_documentation_default cands refine) ≠ none
      unfold plan_documentation_default
      dsimp only
      cases refine with
      | error u =>
        rw [hfinal, hv]
        simp
      | ok refjson =>
        rw [hfinal]
        dsimp only
        intro hcon
        rw [dictLookup_eq_none_iff] at hcon
        apply hcon
        by_cases hin : k ∈ refjson.map Prod.fst
        · exact mem_keys_update_left k _ _ hin
        · apply mem_keys_update_right k
          by_contra hno
          have hnone := (dictLookup_eq_none_iff k _).mpr hno
          exact Option.noConfusion ((hfiltv refjson hin).symm.trans hnone)
    · intro hnotin
      show dictLookup k (plan_documentation_default cands (Except.ok refined)) = some v
      unfold plan_documentation_default
      dsimp only
      rw [hfinal]
      have hnodupf : (((heuristic_plan cands).filter
          (fun kv => decide (kv.1 ∉ refined.map Prod.fst))).map Prod.fst).Nodup := by
        have hsub : List.Sublist
            (((heuristic_plan cands).filter
              (fun kv => decide (kv.1 ∉ refined.map Prod.fst))).map Prod.fst)
            ((heuristic_plan cands).map Prod.fst) :=
          List.Sublist.map Prod.fst (List.filter_sublist _)
        exact List.Nodup.sublist hsub (heuristic_keys_nodup cands)
      rw [dictLookup_update_of_notin_base k _ _ hnotin hnodupf]
      exact hfiltv refined hnotin
  have h100 := hmain "100" (Or.inl rfl) _ (heuristic_lookup_100 cands)
  have h200 := hmain "200" (Or.inr rfl) _ (heuristic_lookup_200 cands)
  refine ⟨?_, fun refine => ⟨(h100.1 refine), (h200.1 refine)⟩, h100.2, h200.2⟩
  show plan_documentation_default (select_doc_candidates file_index) (Except.error ()) = _
  unfold plan_documentation_default
  dsimp only
  rw [if_neg (heuristic_no_000 file_index)]

/-- Witness for `planner_fallback_amended` at a concrete empty repository
and a refinement answer omitting the mandatory topics. -/
theorem planner_fallback_amended_witness :
    (plan_documentation none (select_doc_candidates []) (Except.error ()) =
      heuristic_plan (select_doc_candidates [])) ∧
    dictLookup "100" (plan_documentation none [] (Except.ok [("930", "risky")])) =
      some "Always generate architecture overview" ∧
    dictLookup "200" (plan_documentation none [] (Except.ok [("930", "risky")])) =
      some "Always generate business/domain overview" :=
  ⟨(planner_fallback_amended [] [] [("930", "risky")]).1,
   (planner_fallback_amended [] [] [("930", "risky")]).2.2.1 (by decide),
   (planner_fallback_amended [] [] [("930", "risky")]).2.2.2 (by decide)⟩

/-! ## Theorems about link rewriting -/

theorem transformParts_length (sub : String → String) :
    ∀ (i : Nat) (ps : List String), (transformParts sub i ps).length = ps.length := by
  intro i ps
  induction ps generalizing i with
  | nil => rfl
  | cons part rest ih => simp [transformParts, ih]

theorem transformParts_get_odd (sub : String → String) :
    ∀ (ps : List String) (i j : Nat), (i + j) % 2 = 1 →
      (transformParts sub i ps)[j]? = ps[j]? := by
  intro ps
  induction ps with
  | nil => intro i j _; rfl
  | cons part rest ih =>
    intro i j hodd
    cases j with
    | zero =>
      have hi : ¬ i % 2 = 0 := by omega
      simp [transformParts, hi]
    | succ j2 =>
      have h2 : ((i + 1) + j2) % 2 = 1 := by omega
      simp only [transformParts, List.getElem?_cons_succ]
      exact ih (i + 1) j2 h2

/-- C9: fix_linkages splits a document on the code-fence delimiter, applies
the path-to-link substitution to even-indexed segments only, and rejoins, so
every odd-indexed segment — the interior of a fenced code region — reaches
the output unchanged. -/
theorem fix_linkages_frame (sub : String → String) (content : String) :
    ∃ out : List String,
      fix_linkages sub content = String.intercalate "```" out ∧
      out.length = (content.splitOn "```").length ∧
      ∀ i : Nat, i % 2 = 1 → out[i]? = (content.splitOn "```")[i]? := by
  refine ⟨transformParts sub 0 (content.splitOn "```"), rfl,
    transformParts_length sub 0 _, ?_⟩
  intro i hi
  exact transformParts_get_odd sub _ 0 i (by simpa using hi)

/-- Witness for `fix_linkages_frame` at a concrete substitution and
document. -/
theorem fix_linkages_frame_witness :
    ∃ out : List String,
      fix_linkages (fun s => s ++ "!") "a```b```c" = String.intercalate "```" out ∧
      out.length = ("a```b```c".splitOn "```").length ∧
      ∀ i : Nat, i % 2 = 1 → out[i]? = ("a```b```c".splitOn "```")[i]? :=
  fix_linkages_frame (fun s => s ++ "!") "a```b```c"

end Cerebro
